import Mathlib

set_option autoImplicit false

/-!
Verification of the `NEODatabase` core (`src/database.py`) of the
cd0010-advanced-python-techniques project.

The class is shallowly embedded: Python objects live in the two lists held by
the database, and object identity is arena-style — a close approach's `neo`
reference stores the *position* of the NEO in the database's NEO list, and a
NEO's `approaches` collection stores the *positions* of close approaches in
the database's approach list.  `is`-identity in Python is exactly position
equality here.  Python `dict`s are modelled as association lists of
assignments in most-recent-first order, so a later assignment to an equal key
silently overwrites an earlier one, as in CPython.
-/

/-- Python `str.lower()`: lowercase every character. -/
def pyLower (s : String) : String := ⟨s.data.map Char.toLower⟩

/-- Python `str.strip()` with no argument: remove leading and trailing
whitespace. -/
def pyStrip (s : String) : String :=
  ⟨((s.data.dropWhile Char.isWhitespace).reverse.dropWhile Char.isWhitespace).reverse⟩

/-- A near-Earth object record as consumed by `database.py`: a primary
`designation`, an optional `name` (`None` is `Option.none`), and the mutable
`approaches` collection, holding positions of close approaches. -/
structure NearEarthObject where
  designation : String
  name : Option String
  approaches : List Nat
  deriving DecidableEq

/-- A close-approach record as consumed by `database.py`: the foreign-key
`_designation` string, opaque payload fields (`time`, `distance`,
`velocity`), and the mutable `neo` reference, holding the position of the
linked NEO (or `none` when unset). -/
structure CloseApproach where
  _designation : String
  time : Nat
  distance : Nat
  velocity : Nat
  neo : Option Nat
  deriving DecidableEq

/-- Python `d[k]` / `k in d` on an assignment-list dictionary: the first
(most recent) entry for the key wins. -/
def lookupD (m : List (String × Nat)) (k : String) : Option Nat :=
  match m with
  | [] => none
  | (k₀, v) :: rest => if k₀ = k then some v else lookupD rest k

/-- One dictionary assignment `d[key(neos[i])] = i` of the index-building
loops of `NEODatabase.__init__`; a `none` key means the comprehension skips
this NEO. -/
def dictIns (key : NearEarthObject → Option String) (neos : List NearEarthObject)
    (m : List (String × Nat)) (i : Nat) : List (String × Nat) :=
  match neos[i]? with
  | some neo =>
    match key neo with
    | some s => (s, i) :: m
    | none => m
  | none => m

/-- `for i, neo in enumerate(neos): d[key(neo)] = i` — the shape shared by the
three dictionaries `NEODatabase.__init__` builds. -/
def dictOfKeyed (key : NearEarthObject → Option String) (neos : List NearEarthObject) :
    List (String × Nat) :=
  (List.range neos.length).foldl (dictIns key neos) []

/-- `self._designation_to_index[neo.designation] = i` (database.py lines
50-53): exact, case-sensitive designation keys, values are list positions. -/
def designationToIndexDict (neos : List NearEarthObject) : List (String × Nat) :=
  dictOfKeyed (fun neo => some neo.designation) neos

/-- `self._designation_to_neo = {neo.designation.lower(): neo for neo in
self._neos}` (lines 64-66).  The key is lowercased but *not* stripped; the
value (the NEO object) is its position. -/
def designationToNeoDict (neos : List NearEarthObject) : List (String × Nat) :=
  dictOfKeyed (fun neo => some (pyLower neo.designation)) neos

/-- `self._name_to_neo = {neo.name.lower(): neo for neo in self._neos if
neo.name is not None}` (lines 67-69).  The guard is `is not None` only, so an
empty-string name *is* indexed under the key `""`. -/
def nameToNeoDict (neos : List NearEarthObject) : List (String × Nat) :=
  dictOfKeyed (fun neo => neo.name.map pyLower) neos

/-- Replace the element at position `i` by `f` of it (out-of-range is a
no-op); used for the in-place `approach.neo.approaches.append(approach)`. -/
def listModify {α : Type*} (l : List α) (i : Nat) (f : α → α) : List α :=
  match l[i]? with
  | some x => l.set i (f x)
  | none => l

/-- One iteration of the linking loop of `NEODatabase.__init__` (lines 55-61)
at approach position `j`:

    if approach.neo is None:
        if approach._designation in self._designation_to_index:
            approach.neo = self._neos[self._designation_to_index[approach._designation]]
            approach.neo.approaches.append(approach)

acting on the current state of the (NEO list, approach list) pair. -/
def linkStep (d : List (String × Nat)) (st : List NearEarthObject × List CloseApproach)
    (j : Nat) : List NearEarthObject × List CloseApproach :=
  match st.2[j]? with
  | none => st
  | some a =>
    if a.neo.isNone then
      match lookupD d a._designation with
      | some i =>
        (listModify st.1 i (fun n => { n with approaches := n.approaches ++ [j] }),
         st.2.set j { a with neo := some i })
      | none => st
    else st

/-- The linking loop run over the first `k` approach positions. -/
def linkFold (d : List (String × Nat)) (neos : List NearEarthObject)
    (apps : List CloseApproach) (k : Nat) : List NearEarthObject × List CloseApproach :=
  (List.range k).foldl (linkStep d) (neos, apps)

/-- The state of a `NEODatabase` after `__init__`: the two (mutated)
collections and the three auxiliary dictionaries. -/
structure NEODatabase where
  _neos : List NearEarthObject
  _approaches : List CloseApproach
  _designation_to_index : List (String × Nat)
  _designation_to_neo : List (String × Nat)
  _name_to_neo : List (String × Nat)
  deriving DecidableEq

/-- `NEODatabase.__init__` (database.py lines 28-69): build the
designation→index dictionary, run the linking loop over every approach, then
build the two lookup dictionaries from the (now linked) NEO list. -/
def NEODatabase.init (neos : List NearEarthObject) (approaches : List CloseApproach) :
    NEODatabase :=
  let d := designationToIndexDict neos
  let st := linkFold d neos approaches approaches.length
  { _neos := st.1
    _approaches := st.2
    _designation_to_index := d
    _designation_to_neo := designationToNeoDict st.1
    _name_to_neo := nameToNeoDict st.1 }

/-- `get_neo_by_designation` (lines 71-84):
`return self._designation_to_neo.get(designation.strip().lower(), None)`.
The returned NEO is identified by its position in `_neos`. -/
def NEODatabase.get_neo_by_designation (db : NEODatabase) (designation : String) :
    Option Nat :=
  lookupD db._designation_to_neo (pyLower (pyStrip designation))

/-- `get_neo_by_name` (lines 86-100):
`return self._name_to_neo.get(name.strip().lower(), None)`. -/
def NEODatabase.get_neo_by_name (db : NEODatabase) (name : String) : Option Nat :=
  lookupD db._name_to_neo (pyLower (pyStrip name))

/-- The dynamic behaviour of `get_neo_by_name` when the caller passes
Python's null representation `None` for the `str`-typed parameter:
`name.strip()` raises `AttributeError` before any lookup happens. -/
def NEODatabase.get_neo_by_name_dyn (db : NEODatabase) (name : Option String) :
    Except String (Option Nat) :=
  match name with
  | none => Except.error "AttributeError"
  | some s => Except.ok (db.get_neo_by_name s)

/-- The inner `for filter in filters:` loop of `query` (lines 120-128) with
the `result` flag threaded: `result` is set `True` on a passing filter and
the loop breaks with `result = False` on the first failing one. -/
def filterLoop (a : CloseApproach) : List (CloseApproach → Bool) → Bool → Bool
  | [], result => result
  | f :: fs, _ => if f a then filterLoop a fs true else false

/-- What one iteration of `query`'s outer loop yields for one approach
(lines 116-133): one yield on the `len(filters) == 0` branch, then — unless
`result is False` triggered `continue` — a second yield. -/
def queryYields (filters : List (CloseApproach → Bool)) (a : CloseApproach) :
    List CloseApproach :=
  (if filters.length = 0 then [a] else []) ++
    (if filterLoop a filters false then [a] else [])

/-- `NEODatabase.query` (lines 102-133), the generator's output stream
reified as the list of yielded elements.  The unordered `filters` set is
modelled as a list of predicates; the yield decision is a conjunction, so
the set's iteration order is immaterial. -/
def NEODatabase.query (db : NEODatabase) (filters : List (CloseApproach → Bool)) :
    List CloseApproach :=
  db._approaches.flatMap (queryYields filters)

/-- `query` with the database state threaded explicitly through the
generator's loop, one iteration per stored approach: the loop body reads
`self._approaches` and the filters but contains no write to the database, so
every iteration passes the state through unchanged. -/
def NEODatabase.queryST (db : NEODatabase) (filters : List (CloseApproach → Bool)) :
    NEODatabase × List CloseApproach :=
  db._approaches.foldl (fun st a => (st.1, st.2 ++ queryYields filters a)) (db, [])

/-- The pointwise effect of the linking loop on the approach at one
position: resolved from the designation→index dictionary when the `neo`
reference is unset. -/
def linkApproach (d : List (String × Nat)) (a : CloseApproach) : CloseApproach :=
  if a.neo.isNone then
    match lookupD d a._designation with
    | some i => { a with neo := some i }
    | none => a
  else a

/-- Whether the linking loop appends approach position `j` to the approaches
of the NEO at position `i`. -/
def linksTo (d : List (String × Nat)) (apps : List CloseApproach) (i j : Nat) : Bool :=
  match apps[j]? with
  | some a => a.neo.isNone && (lookupD d a._designation == some i)
  | none => false

/-- The approach positions among `0, …, k-1` that the linking loop appends to
the NEO at position `i`, in loop order. -/
def linkedAppsTo (d : List (String × Nat)) (apps : List CloseApproach) (i k : Nat) :
    List Nat :=
  (List.range k).filter (fun j => linksTo d apps i j)

/-- The key the dictionary-building loop would store for position `i`. -/
def keyAt (key : NearEarthObject → Option String) (neos : List NearEarthObject)
    (i : Nat) : Option String :=
  neos[i]?.bind key

/-- The position of the last NEO among `0, …, k-1` whose key is `s` — the
entry a sequence of dictionary assignments leaves behind. -/
def lastKeyMatch (key : NearEarthObject → Option String) (neos : List NearEarthObject)
    (s : String) : Nat → Option Nat
  | 0 => none
  | k + 1 => if keyAt key neos k = some s then some k else lastKeyMatch key neos s k

lemma lt_length_of_getElem? {α : Type*} {l : List α} {i : Nat} {a : α}
    (h : l[i]? = some a) : i < l.length := by
  by_contra hc
  rw [List.getElem?_eq_none (Nat.le_of_not_lt hc)] at h
  exact Option.noConfusion h

lemma length_listModify {α : Type*} (l : List α) (i : Nat) (f : α → α) :
    (listModify l i f).length = l.length := by
  unfold listModify
  cases h : l[i]? <;> simp

lemma listModify_getElem?_self {α : Type*} (l : List α) (i : Nat) (f : α → α) :
    (listModify l i f)[i]? = l[i]?.map f := by
  unfold listModify
  cases h : l[i]? with
  | none => simp [h]
  | some x => simp [List.getElem?_set_self', h, Function.const]

lemma listModify_getElem?_ne {α : Type*} (l : List α) {i j : Nat} (f : α → α)
    (hij : i ≠ j) : (listModify l i f)[j]? = l[j]? := by
  unfold listModify
  cases h : l[i]? with
  | none => rfl
  | some x => exact List.getElem?_set_ne hij

lemma dictIns_eq (key : NearEarthObject → Option String) (neos : List NearEarthObject)
    (m : List (String × Nat)) (k : Nat) :
    dictIns key neos m k =
      match keyAt key neos k with
      | some s => (s, k) :: m
      | none => m := by
  unfold dictIns keyAt
  cases neos[k]? with
  | none => rfl
  | some neo => cases key neo <;> rfl

lemma lookupD_dictFold (key : NearEarthObject → Option String)
    (neos : List NearEarthObject) (s : String) (k : Nat) :
    lookupD ((List.range k).foldl (dictIns key neos) []) s = lastKeyMatch key neos s k := by
  induction k with
  | zero => rfl
  | succ k ih =>
    unfold lastKeyMatch
    rw [List.range_succ, List.foldl_append, List.foldl_cons, List.foldl_nil, dictIns_eq]
    cases hkey : keyAt key neos k with
    | none => simp [ih]
    | some s₀ =>
      by_cases hs : s₀ = s
      · simp [lookupD, hs]
      · simp [lookupD, hs, ih]

lemma lookupD_dictOfKeyed (key : NearEarthObject → Option String)
    (neos : List NearEarthObject) (s : String) :
    lookupD (dictOfKeyed key neos) s = lastKeyMatch key neos s neos.length :=
  lookupD_dictFold key neos s neos.length

lemma lastKeyMatch_eq_some_iff (key : NearEarthObject → Option String)
    (neos : List NearEarthObject) (s : String) (k i : Nat) :
    lastKeyMatch key neos s k = some i ↔
      i < k ∧ keyAt key neos i = some s ∧
        ∀ i', i < i' → i' < k → keyAt key neos i' ≠ some s := by
  induction k with
  | zero => simp [lastKeyMatch]
  | succ k ih =>
    unfold lastKeyMatch
    by_cases hk : keyAt key neos k = some s
    · simp only [hk, if_pos]
      constructor
      · intro h
        have hik : k = i := Option.some.inj h
        subst hik
        exact ⟨Nat.lt_succ_self k, hk, fun i' h1 h2 => absurd h2 (by omega)⟩
      · rintro ⟨h1, h2, h3⟩
        by_cases hik : i = k
        · rw [hik]
        · have hlt : i < k := by omega
          exact absurd hk (h3 k hlt (Nat.lt_succ_self k))
    · rw [if_neg hk, ih]
      constructor
      · rintro ⟨h1, h2, h3⟩
        refine ⟨by omega, h2, fun i' ha hb => ?_⟩
        by_cases hik : i' = k
        · rw [hik]; exact hk
        · exact h3 i' ha (by omega)
      · rintro ⟨h1, h2, h3⟩
        have hik : i ≠ k := fun he => hk (he ▸ h2)
        exact ⟨by omega, h2, fun i' ha hb => h3 i' ha (by omega)⟩

lemma lastKeyMatch_eq_none_iff (key : NearEarthObject → Option String)
    (neos : List NearEarthObject) (s : String) (k : Nat) :
    lastKeyMatch key neos s k = none ↔ ∀ i, i < k → keyAt key neos i ≠ some s := by
  induction k with
  | zero => simp [lastKeyMatch]
  | succ k ih =>
    unfold lastKeyMatch
    by_cases hk : keyAt key neos k = some s
    · simp only [hk, if_pos]
      constructor
      · intro h; exact Option.noConfusion h
      · intro h; exact absurd hk (h k (Nat.lt_succ_self k))
    · rw [if_neg hk, ih]
      constructor
      · intro h i hi
        by_cases hik : i = k
        · rw [hik]; exact hk
        · exact h i (by omega)
      · intro h i hi
        exact h i (by omega)

lemma linkStep_none {d : List (String × Nat)} {st : List NearEarthObject × List CloseApproach}
    {j : Nat} (h : st.2[j]? = none) : linkStep d st j = st := by
  unfold linkStep
  rw [h]

lemma linkStep_linked {d : List (String × Nat)} {st : List NearEarthObject × List CloseApproach}
    {j : Nat} {a : CloseApproach} (h : st.2[j]? = some a) (ha : a.neo.isNone = false) :
    linkStep d st j = st := by
  unfold linkStep
  rw [h]
  simp [ha]

lemma linkStep_nomatch {d : List (String × Nat)} {st : List NearEarthObject × List CloseApproach}
    {j : Nat} {a : CloseApproach} (h : st.2[j]? = some a) (ha : a.neo.isNone = true)
    (hl : lookupD d a._designation = none) : linkStep d st j = st := by
  unfold linkStep
  rw [h]
  simp [ha, hl]

lemma linkStep_found {d : List (String × Nat)} {st : List NearEarthObject × List CloseApproach}
    {j : Nat} {a : CloseApproach} {i : Nat} (h : st.2[j]? = some a) (ha : a.neo.isNone = true)
    (hl : lookupD d a._designation = some i) :
    linkStep d st j =
      (listModify st.1 i (fun n => { n with approaches := n.approaches ++ [j] }),
       st.2.set j { a with neo := some i }) := by
  unfold linkStep
  rw [h]
  simp [ha, hl]

lemma linkFold_succ (d : List (String × Nat)) (neos : List NearEarthObject)
    (apps : List CloseApproach) (k : Nat) :
    linkFold d neos apps (k + 1) = linkStep d (linkFold d neos apps k) k := by
  unfold linkFold
  rw [List.range_succ, List.foldl_append, List.foldl_cons, List.foldl_nil]

lemma linkedAppsTo_succ (d : List (String × Nat)) (apps : List CloseApproach) (i k : Nat) :
    linkedAppsTo d apps i (k + 1) =
      linkedAppsTo d apps i k ++ (if linksTo d apps i k then [k] else []) := by
  unfold linkedAppsTo
  rw [List.range_succ, List.filter_append]
  cases h : linksTo d apps i k <;> simp [h]

lemma linkFold_inv (d : List (String × Nat)) (neos : List NearEarthObject)
    (apps : List CloseApproach) (k : Nat) :
    (linkFold d neos apps k).1.length = neos.length ∧
    (linkFold d neos apps k).2.length = apps.length ∧
    (∀ j, k ≤ j → (linkFold d neos apps k).2[j]? = apps[j]?) ∧
    (∀ j, j < k → (linkFold d neos apps k).2[j]? = apps[j]?.map (linkApproach d)) ∧
    (∀ i : Nat, (linkFold d neos apps k).1[i]? =
      neos[i]?.map (fun n => { n with approaches := n.approaches ++ linkedAppsTo d apps i k })) := by
  induction k with
  | zero =>
    refine ⟨rfl, rfl, fun j _ => rfl, fun j hj => absurd hj (Nat.not_lt_zero j), fun i => ?_⟩
    show neos[i]? =
      neos[i]?.map (fun n => { n with approaches := n.approaches ++ linkedAppsTo d apps i 0 })
    cases neos[i]? with
    | none => rfl
    | some n => simp [linkedAppsTo]
  | succ k ih =>
    obtain ⟨hl1, hl2, hge, hlt, hneo⟩ := ih
    have hread : (linkFold d neos apps k).2[k]? = apps[k]? := hge k le_rfl
    rw [linkFold_succ]
    cases happ : apps[k]? with
    | none =>
      rw [linkStep_none (hread.trans happ)]
      refine ⟨hl1, hl2, fun j hj => hge j (by omega), fun j hj => ?_, fun i => ?_⟩
      · by_cases hjk : j = k
        · subst hjk
          rw [hread, happ]
          rfl
        · exact hlt j (by omega)
      · have hfalse : linksTo d apps i k = false := by simp [linksTo, happ]
        rw [hneo i, linkedAppsTo_succ, hfalse]
        simp
    | some a =>
      cases hneoa : a.neo with
      | some m =>
        have hfalse : a.neo.isNone = false := by simp [hneoa]
        rw [linkStep_linked (hread.trans happ) hfalse]
        refine ⟨hl1, hl2, fun j hj => hge j (by omega), fun j hj => ?_, fun i => ?_⟩
        · by_cases hjk : j = k
          · subst hjk
            rw [hread, happ]
            simp [linkApproach, hfalse]
          · exact hlt j (by omega)
        · have hTk : linksTo d apps i k = false := by simp [linksTo, happ, hfalse]
          rw [hneo i, linkedAppsTo_succ, hTk]
          simp
      | none =>
        have htrue : a.neo.isNone = true := by simp [hneoa]
        cases hlook : lookupD d a._designation with
        | none =>
          rw [linkStep_nomatch (hread.trans happ) htrue hlook]
          refine ⟨hl1, hl2, fun j hj => hge j (by omega), fun j hj => ?_, fun i => ?_⟩
          · by_cases hjk : j = k
            · subst hjk
              rw [hread, happ]
              simp [linkApproach, htrue, hlook]
            · exact hlt j (by omega)
          · have hTk : linksTo d apps i k = false := by simp [linksTo, happ, htrue, hlook]
            rw [hneo i, linkedAppsTo_succ, hTk]
            simp
        | some i₀ =>
          rw [linkStep_found (hread.trans happ) htrue hlook]
          have hklen : k < apps.length := lt_length_of_getElem? happ
          refine ⟨?_, ?_, fun j hj => ?_, fun j hj => ?_, fun i => ?_⟩
          · rw [length_listModify]
            exact hl1
          · rw [List.length_set]
            exact hl2
          · have hjk : k ≠ j := by omega
            rw [List.getElem?_set_ne hjk]
            exact hge j (by omega)
          · by_cases hjk : j = k
            · subst hjk
              rw [List.getElem?_set_self', hread, happ]
              simp [linkApproach, htrue, hlook, Function.const]
            · have hjk' : k ≠ j := fun he => hjk he.symm
              rw [List.getElem?_set_ne hjk']
              exact hlt j (by omega)
          · by_cases hi : i = i₀
            · subst hi
              have hTk : linksTo d apps i k = true := by
                simp [linksTo, happ, htrue, hlook]
              rw [listModify_getElem?_self, hneo i, Option.map_map, linkedAppsTo_succ, hTk]
              cases neos[i]? with
              | none => rfl
              | some n => simp [Function.comp]
            · have hi' : i₀ ≠ i := fun he => hi he.symm
              have hTk : linksTo d apps i k = false := by
                have : ((some i₀ : Option Nat) == some i) = false := by
                  rw [beq_eq_false_iff_ne]
                  intro he
                  exact hi' (Option.some.inj he)
                simp [linksTo, happ, htrue, hlook, this]
              rw [listModify_getElem?_ne _ _ hi', hneo i, linkedAppsTo_succ, hTk]
              simp

lemma init_neos_def (neos : List NearEarthObject) (apps : List CloseApproach) :
    (NEODatabase.init neos apps)._neos =
      (linkFold (designationToIndexDict neos) neos apps apps.length).1 := rfl

lemma init_approaches_def (neos : List NearEarthObject) (apps : List CloseApproach) :
    (NEODatabase.init neos apps)._approaches =
      (linkFold (designationToIndexDict neos) neos apps apps.length).2 := rfl

lemma init_d2n_def (neos : List NearEarthObject) (apps : List CloseApproach) :
    (NEODatabase.init neos apps)._designation_to_neo =
      designationToNeoDict (linkFold (designationToIndexDict neos) neos apps apps.length).1 :=
  rfl

lemma init_n2n_def (neos : List NearEarthObject) (apps : List CloseApproach) :
    (NEODatabase.init neos apps)._name_to_neo =
      nameToNeoDict (linkFold (designationToIndexDict neos) neos apps apps.length).1 := rfl

lemma init_approaches_getElem? (neos : List NearEarthObject) (apps : List CloseApproach)
    (j : Nat) :
    (NEODatabase.init neos apps)._approaches[j]? =
      apps[j]?.map (linkApproach (designationToIndexDict neos)) := by
  obtain ⟨_, _, hge, hlt, _⟩ := linkFold_inv (designationToIndexDict neos) neos apps apps.length
  rw [init_approaches_def]
  rcases Nat.lt_or_ge j apps.length with h | h
  · exact hlt j h
  · rw [hge j h, List.getElem?_eq_none h]
    rfl

lemma init_neos_getElem? (neos : List NearEarthObject) (apps : List CloseApproach)
    (i : Nat) :
    (NEODatabase.init neos apps)._neos[i]? =
      neos[i]?.map (fun n =>
        { n with approaches :=
            n.approaches ++ linkedAppsTo (designationToIndexDict neos) apps i apps.length }) := by
  obtain ⟨_, _, _, _, hneo⟩ := linkFold_inv (designationToIndexDict neos) neos apps apps.length
  rw [init_neos_def]
  exact hneo i

lemma init_neos_length (neos : List NearEarthObject) (apps : List CloseApproach) :
    (NEODatabase.init neos apps)._neos.length = neos.length := by
  obtain ⟨hl1, _, _, _, _⟩ := linkFold_inv (designationToIndexDict neos) neos apps apps.length
  rw [init_neos_def]
  exact hl1

lemma keyAt_desig (neos : List NearEarthObject) (i : Nat) :
    keyAt (fun n => some n.designation) neos i = neos[i]?.map (fun n => n.designation) := by
  unfold keyAt
  cases neos[i]? <;> rfl

lemma init_keyAt_desig (neos : List NearEarthObject) (apps : List CloseApproach) (i : Nat) :
    keyAt (fun n => some (pyLower n.designation)) (NEODatabase.init neos apps)._neos i =
      neos[i]?.map (fun n => pyLower n.designation) := by
  unfold keyAt
  rw [init_neos_getElem?]
  cases neos[i]? <;> rfl

lemma init_keyAt_name (neos : List NearEarthObject) (apps : List CloseApproach) (i : Nat) :
    keyAt (fun n => n.name.map pyLower) (NEODatabase.init neos apps)._neos i =
      neos[i]?.bind (fun n => n.name.map pyLower) := by
  unfold keyAt
  rw [init_neos_getElem?]
  cases neos[i]? <;> rfl

lemma lookupD_designationToIndexDict (neos : List NearEarthObject) (s : String) :
    lookupD (designationToIndexDict neos) s =
      lastKeyMatch (fun n => some n.designation) neos s neos.length :=
  lookupD_dictOfKeyed _ _ _

lemma get_neo_by_designation_init (neos : List NearEarthObject) (apps : List CloseApproach)
    (s : String) :
    (NEODatabase.init neos apps).get_neo_by_designation s =
      lastKeyMatch (fun n => some (pyLower n.designation)) (NEODatabase.init neos apps)._neos
        (pyLower (pyStrip s)) neos.length := by
  unfold NEODatabase.get_neo_by_designation
  rw [init_d2n_def]
  unfold designationToNeoDict
  rw [lookupD_dictOfKeyed, ← init_neos_def, init_neos_length]

lemma get_neo_by_name_init (neos : List NearEarthObject) (apps : List CloseApproach)
    (s : String) :
    (NEODatabase.init neos apps).get_neo_by_name s =
      lastKeyMatch (fun n => n.name.map pyLower) (NEODatabase.init neos apps)._neos
        (pyLower (pyStrip s)) neos.length := by
  unfold NEODatabase.get_neo_by_name
  rw [init_n2n_def]
  unfold nameToNeoDict
  rw [lookupD_dictOfKeyed, ← init_neos_def, init_neos_length]

lemma filterLoop_eq (a : CloseApproach) (fs : List (CloseApproach → Bool)) (b : Bool) :
    filterLoop a fs b = (if fs.isEmpty then b else fs.all (fun f => f a)) := by
  induction fs generalizing b with
  | nil => simp [filterLoop]
  | cons f fs ih =>
    simp only [filterLoop]
    cases hfa : f a with
    | false => simp [hfa]
    | true =>
      cases fs with
      | nil => simp [hfa, filterLoop]
      | cons g gs => simp [hfa, ih true]

lemma flatMap_queryYields_nil (l : List CloseApproach) :
    l.flatMap (queryYields []) = l := by
  induction l with
  | nil => rfl
  | cons a l ih => simp [queryYields, filterLoop, ih]

lemma flatMap_queryYields_filter (fs : List (CloseApproach → Bool)) (h : fs ≠ [])
    (l : List CloseApproach) :
    l.flatMap (queryYields fs) = l.filter (fun a => fs.all (fun f => f a)) := by
  have hie : fs.isEmpty = false := by
    cases fs with
    | nil => exact absurd rfl h
    | cons f fs => rfl
  have hlen : fs.length ≠ 0 := by
    cases fs with
    | nil => exact absurd rfl h
    | cons f fs => simp
  induction l with
  | nil => rfl
  | cons a l ih =>
    rw [List.flatMap_cons, List.filter_cons, ih]
    unfold queryYields
    rw [if_neg hlen, filterLoop_eq, hie]
    cases hall : fs.all (fun f => f a) <;> simp

lemma queryST_eq (db : NEODatabase) (fs : List (CloseApproach → Bool)) :
    db.queryST fs = (db, db.query fs) := by
  unfold NEODatabase.queryST NEODatabase.query
  have haux : ∀ (l : List CloseApproach) (d₀ : NEODatabase) (acc : List CloseApproach),
      l.foldl (fun st a => (st.1, st.2 ++ queryYields fs a)) (d₀, acc) =
        (d₀, acc ++ l.flatMap (queryYields fs)) := by
    intro l
    induction l with
    | nil => intro d₀ acc; simp
    | cons a l ih => intro d₀ acc; simp [ih, List.append_assoc]
  simpa using haux db._approaches db []

lemma pyLower_eq_empty_iff (s : String) : pyLower s = "" ↔ s = "" := by
  constructor
  · intro h
    have hd : (pyLower s).data = ("" : String).data := by rw [h]
    simp only [pyLower] at hd
    exact String.ext (by simpa using hd)
  · intro h
    rw [h]
    rfl

lemma mem_dictFold (key : NearEarthObject → Option String) (neos : List NearEarthObject)
    (p : String × Nat) (k : Nat)
    (h : p ∈ (List.range k).foldl (dictIns key neos) []) :
    keyAt key neos p.2 = some p.1 := by
  induction k with
  | zero => exact absurd h (List.not_mem_nil p)
  | succ k ih =>
    rw [List.range_succ, List.foldl_append, List.foldl_cons, List.foldl_nil, dictIns_eq] at h
    cases hkey : keyAt key neos k with
    | none =>
      rw [hkey] at h
      exact ih h
    | some s₀ =>
      rw [hkey] at h
      rcases List.mem_cons.mp h with he | hm
      · subst he
        exact hkey
      · exact ih hm

/-- C3: `query` called with an empty filter set yields every stored close
approach exactly once, in the original storage order.  There is no
double-yield on the empty-filter path: after the unconditional first yield
the `result` flag is (still) `False`, so the `continue` on line 131 skips the
second `yield`. -/
theorem C3_query_empty_filters_yields_all (db : NEODatabase) :
    db.query [] = db._approaches := by
  unfold NEODatabase.query
  exact flatMap_queryYields_nil db._approaches

/-- C2: with a non-empty filter set, `query` yields exactly the approaches
satisfying every predicate (logical AND), in the original storage order,
each exactly once; the result is empty when no approach satisfies all
predicates (`List.filter` of an all-false predicate is `[]`). -/
theorem C2_query_is_conjunctive_filter (db : NEODatabase)
    (filters : List (CloseApproach → Bool)) (h : filters ≠ []) :
    db.query filters = db._approaches.filter (fun a => filters.all (fun f => f a)) := by
  unfold NEODatabase.query
  exact flatMap_queryYields_filter filters h db._approaches

theorem C2_query_is_conjunctive_filter_witness :
    (NEODatabase.init
        [⟨"433", some "Eros", []⟩, ⟨"2000 FJ10", none, []⟩]
        [⟨"433", 1, 1, 1, none⟩, ⟨"433", 2, 2, 2, none⟩, ⟨"999", 3, 3, 3, none⟩]).query
        [fun a => decide (a.distance ≤ 1)] =
      (NEODatabase.init
        [⟨"433", some "Eros", []⟩, ⟨"2000 FJ10", none, []⟩]
        [⟨"433", 1, 1, 1, none⟩, ⟨"433", 2, 2, 2, none⟩,
         ⟨"999", 3, 3, 3, none⟩])._approaches.filter
        (fun a => ([fun a => decide (a.distance ≤ 1)] :
          List (CloseApproach → Bool)).all (fun f => f a)) :=
  C2_query_is_conjunctive_filter _ _ (List.cons_ne_nil _ _)

/-- C8: `query` is a read-only traversal.  With the database state threaded
explicitly through the generator's loop (`queryST`), the loop returns the
state unchanged — the NEO collection, the approach collection, and all three
dictionaries are exactly as they were after construction — and its output is
the `query` stream.  Predicates are pure `CloseApproach → Bool` functions, so
no filter can mutate approach or NEO state. -/
theorem C8_query_is_readonly (db : NEODatabase) (filters : List (CloseApproach → Bool)) :
    (db.queryST filters).1 = db ∧
    (db.queryST filters).2 = db.query filters ∧
    (db.queryST filters).1._neos = db._neos ∧
    (db.queryST filters).1._approaches = db._approaches ∧
    (db.queryST filters).1._designation_to_index = db._designation_to_index ∧
    (db.queryST filters).1._designation_to_neo = db._designation_to_neo ∧
    (db.queryST filters).1._name_to_neo = db._name_to_neo := by
  rw [queryST_eq]
  exact ⟨rfl, rfl, rfl, rfl, rfl, rfl, rfl⟩

/-- C6: a close approach whose `_designation` matches no NEO's designation is
left entirely unchanged by the constructor — its `neo` reference stays unset —
and the constructor (a total function here, with no raising branch in the
source) raises no error for such a dangling foreign key. -/
theorem C6_unmatched_approach_left_unset (neos : List NearEarthObject)
    (apps : List CloseApproach) (j : Nat) (a : CloseApproach)
    (ha : apps[j]? = some a) (hunset : a.neo = none)
    (hnomatch : ∀ i, i < neos.length →
      neos[i]?.map (fun n => n.designation) ≠ some a._designation) :
    (NEODatabase.init neos apps)._approaches[j]? = some a := by
  rw [init_approaches_getElem?, ha]
  have hlook : lookupD (designationToIndexDict neos) a._designation = none := by
    rw [lookupD_designationToIndexDict, lastKeyMatch_eq_none_iff]
    intro i hi
    rw [keyAt_desig]
    exact hnomatch i hi
  simp [linkApproach, hunset, hlook]

theorem C6_unmatched_approach_left_unset_witness :
    (NEODatabase.init [⟨"433", some "Eros", []⟩]
        [⟨"999", 3, 3, 3, none⟩])._approaches[0]? = some ⟨"999", 3, 3, 3, none⟩ :=
  C6_unmatched_approach_left_unset _ _ 0 _ rfl rfl (by decide)

/-- C9: an input close approach whose `neo` reference is already set
(violating the unlinked-input precondition) is skipped by the `if
approach.neo is None` guard: no error is raised, the approach is unchanged
in the collection, and no NEO's `approaches` collection receives it (every
NEO's multiplicity of position `j` is exactly what it was in the input). -/
theorem C9_prelinked_approach_skipped (neos : List NearEarthObject)
    (apps : List CloseApproach) (j k : Nat) (a : CloseApproach)
    (ha : apps[j]? = some a) (hset : a.neo = some k) :
    (NEODatabase.init neos apps)._approaches[j]? = some a ∧
    (NEODatabase.init neos apps)._neos.map (fun n => n.approaches.count j) =
      neos.map (fun n => n.approaches.count j) := by
  constructor
  · rw [init_approaches_getElem?, ha]
    simp [linkApproach, hset]
  · apply List.ext_getElem?
    intro i
    rw [List.getElem?_map, List.getElem?_map, init_neos_getElem?, Option.map_map]
    cases neos[i]? with
    | none => rfl
    | some n =>
      have hz : (linkedAppsTo (designationToIndexDict neos) apps i apps.length).count j = 0 := by
        rw [List.count_eq_zero]
        intro hmem
        unfold linkedAppsTo at hmem
        have hpred := (List.mem_filter.mp hmem).2
        simp [linksTo, ha, hset] at hpred
      simp [Function.comp, List.count_append, hz]

theorem C9_prelinked_approach_skipped_witness :
    (NEODatabase.init [⟨"433", some "Eros", []⟩]
        [⟨"433", 1, 1, 1, some 5⟩])._approaches[0]? = some ⟨"433", 1, 1, 1, some 5⟩ ∧
    (NEODatabase.init [⟨"433", some "Eros", []⟩]
        [⟨"433", 1, 1, 1, some 5⟩])._neos.map (fun n => n.approaches.count 0) =
      ([⟨"433", some "Eros", []⟩] : List NearEarthObject).map
        (fun n => n.approaches.count 0) :=
  C9_prelinked_approach_skipped _ _ 0 5 _ rfl rfl

/-- C1: after construction, an input close approach at position `j` whose
`_designation` equals (case-sensitively) the designation of exactly one input
NEO — the one at position `i` — has its `neo` reference set to that NEO, and
`j` occurs exactly once in that NEO's `approaches` collection, which lists
positions in strictly increasing order, i.e. in the relative order of the
input approach sequence (precondition: inputs are unlinked). -/
theorem C1_constructor_links_unique_match (neos : List NearEarthObject)
    (apps : List CloseApproach)
    (hunl_n : ∀ n ∈ neos, n.approaches = ([] : List Nat))
    (hunl_a : ∀ b ∈ apps, b.neo = (none : Option Nat))
    (j i : Nat) (a : CloseApproach) (n : NearEarthObject)
    (ha : apps[j]? = some a) (hn : neos[i]? = some n)
    (hd : a._designation = n.designation)
    (huniq : ∀ ii, ii < neos.length → ii ≠ i →
      neos[ii]?.map (fun nn => nn.designation) ≠ some n.designation) :
    ((NEODatabase.init neos apps)._approaches[j]?).map CloseApproach.neo = some (some i) ∧
    ((NEODatabase.init neos apps)._neos[i]?).map (fun nn => nn.approaches.count j) = some 1 ∧
    ((NEODatabase.init neos apps)._neos[i]?).map
      (fun nn => decide (nn.approaches.Pairwise (fun x y => x < y))) = some true := by
  have hilen : i < neos.length := lt_length_of_getElem? hn
  have hjlen : j < apps.length := lt_length_of_getElem? ha
  have haneo : a.neo = none := hunl_a a (List.getElem?_mem ha)
  have hlook : lookupD (designationToIndexDict neos) a._designation = some i := by
    rw [lookupD_designationToIndexDict, lastKeyMatch_eq_some_iff]
    refine ⟨hilen, ?_, ?_⟩
    · rw [keyAt_desig, hn, hd]
      rfl
    · intro ii h1 h2
      rw [keyAt_desig, hd]
      exact huniq ii h2 (by omega)
  refine ⟨?_, ?_, ?_⟩
  · rw [init_approaches_getElem?, ha]
    simp [linkApproach, haneo, hlook]
  · rw [init_neos_getElem?, hn]
    have hmem : j ∈ linkedAppsTo (designationToIndexDict neos) apps i apps.length := by
      unfold linkedAppsTo
      rw [List.mem_filter]
      exact ⟨List.mem_range.mpr hjlen, by simp [linksTo, ha, haneo, hlook]⟩
    have hnd := (List.nodup_range apps.length).filter
      (fun jj => linksTo (designationToIndexDict neos) apps i jj)
    simp [hunl_n n (List.getElem?_mem hn)]
    exact List.count_eq_one_of_mem hnd hmem
  · rw [init_neos_getElem?, hn]
    have hpw : (linkedAppsTo (designationToIndexDict neos) apps i apps.length).Pairwise
        (fun x y => x < y) :=
      List.Pairwise.sublist (List.filter_sublist _) (List.pairwise_lt_range apps.length)
    simp [hunl_n n (List.getElem?_mem hn)]
    exact hpw

theorem C1_constructor_links_unique_match_witness :
    ((NEODatabase.init
        [⟨"433", some "Eros", []⟩, ⟨"2000 FJ10", none, []⟩]
        [⟨"433", 1, 1, 1, none⟩, ⟨"999", 3, 3, 3, none⟩,
         ⟨"433", 2, 2, 2, none⟩])._approaches[2]?).map CloseApproach.neo = some (some 0) ∧
    ((NEODatabase.init
        [⟨"433", some "Eros", []⟩, ⟨"2000 FJ10", none, []⟩]
        [⟨"433", 1, 1, 1, none⟩, ⟨"999", 3, 3, 3, none⟩,
         ⟨"433", 2, 2, 2, none⟩])._neos[0]?).map (fun nn => nn.approaches.count 2) = some 1 ∧
    ((NEODatabase.init
        [⟨"433", some "Eros", []⟩, ⟨"2000 FJ10", none, []⟩]
        [⟨"433", 1, 1, 1, none⟩, ⟨"999", 3, 3, 3, none⟩,
         ⟨"433", 2, 2, 2, none⟩])._neos[0]?).map
      (fun nn => decide (nn.approaches.Pairwise (fun x y => x < y))) = some true :=
  C1_constructor_links_unique_match _ _ (by decide) (by decide) 2 0 _ _ rfl rfl rfl
    (by decide)

/-- C10: when two input NEOs carry the same exact designation string, the
designation→index dictionary keeps the last-occurring one, so every close
approach with that designation is linked to — and appended exactly once to —
the NEO occurring last in input order, while the earlier duplicate's
`approaches` collection remains empty (inputs unlinked). -/
theorem C10_duplicate_designation_links_to_last (neos : List NearEarthObject)
    (apps : List CloseApproach)
    (hunl_n : ∀ n ∈ neos, n.approaches = ([] : List Nat))
    (hunl_a : ∀ b ∈ apps, b.neo = (none : Option Nat))
    (i₁ i₂ j : Nat) (n₁ n₂ : NearEarthObject) (a : CloseApproach)
    (h12 : i₁ < i₂) (h1 : neos[i₁]? = some n₁) (h2 : neos[i₂]? = some n₂)
    (hdup : n₁.designation = n₂.designation)
    (hlast : ∀ ii, ii < neos.length → i₂ < ii →
      neos[ii]?.map (fun n => n.designation) ≠ some n₂.designation)
    (ha : apps[j]? = some a) (had : a._designation = n₂.designation) :
    ((NEODatabase.init neos apps)._approaches[j]?).map CloseApproach.neo = some (some i₂) ∧
    ((NEODatabase.init neos apps)._neos[i₂]?).map (fun n => n.approaches.count j) = some 1 ∧
    ((NEODatabase.init neos apps)._neos[i₁]?).map (fun n => n.approaches) =
      some ([] : List Nat) := by
  have hi2len : i₂ < neos.length := lt_length_of_getElem? h2
  have hjlen : j < apps.length := lt_length_of_getElem? ha
  have haneo : a.neo = none := hunl_a a (List.getElem?_mem ha)
  have hlook : lookupD (designationToIndexDict neos) a._designation = some i₂ := by
    rw [lookupD_designationToIndexDict, lastKeyMatch_eq_some_iff]
    refine ⟨hi2len, ?_, ?_⟩
    · rw [keyAt_desig, h2, had]
      rfl
    · intro ii hii1 hii2
      rw [keyAt_desig, had]
      exact hlast ii hii2 hii1
  refine ⟨?_, ?_, ?_⟩
  · rw [init_approaches_getElem?, ha]
    simp [linkApproach, haneo, hlook]
  · rw [init_neos_getElem?, h2]
    have hmem : j ∈ linkedAppsTo (designationToIndexDict neos) apps i₂ apps.length := by
      unfold linkedAppsTo
      rw [List.mem_filter]
      exact ⟨List.mem_range.mpr hjlen, by simp [linksTo, ha, haneo, hlook]⟩
    have hnd := (List.nodup_range apps.length).filter
      (fun jj => linksTo (designationToIndexDict neos) apps i₂ jj)
    simp [hunl_n n₂ (List.getElem?_mem h2)]
    exact List.count_eq_one_of_mem hnd hmem
  · rw [init_neos_getElem?, h1]
    have hempty : linkedAppsTo (designationToIndexDict neos) apps i₁ apps.length = [] := by
      unfold linkedAppsTo
      rw [List.filter_eq_nil_iff]
      intro jj hjj hpred
      cases hb : apps[jj]? with
      | none => simp [linksTo, hb] at hpred
      | some b =>
        simp [linksTo, hb] at hpred
        have hlook1 : lookupD (designationToIndexDict neos) b._designation = some i₁ :=
          hpred.2
        rw [lookupD_designationToIndexDict, lastKeyMatch_eq_some_iff] at hlook1
        obtain ⟨_, hk1, hk3⟩ := hlook1
        rw [keyAt_desig, h1] at hk1
        have hbd : b._designation = n₁.designation := (Option.some.inj hk1).symm
        have hne := hk3 i₂ h12 hi2len
        rw [keyAt_desig, h2] at hne
        refine hne ?_
        rw [hbd, hdup]
        rfl
    simp [hunl_n n₁ (List.getElem?_mem h1), hempty]

theorem C10_duplicate_designation_links_to_last_witness :
    ((NEODatabase.init [⟨"433", some "Eros", []⟩, ⟨"433", none, []⟩]
        [⟨"433", 1, 1, 1, none⟩])._approaches[0]?).map CloseApproach.neo =
      some (some 1) ∧
    ((NEODatabase.init [⟨"433", some "Eros", []⟩, ⟨"433", none, []⟩]
        [⟨"433", 1, 1, 1, none⟩])._neos[1]?).map (fun n => n.approaches.count 0) =
      some 1 ∧
    ((NEODatabase.init [⟨"433", some "Eros", []⟩, ⟨"433", none, []⟩]
        [⟨"433", 1, 1, 1, none⟩])._neos[0]?).map (fun n => n.approaches) =
      some ([] : List Nat) :=
  C10_duplicate_designation_links_to_last _ _ (by decide) (by decide) 0 1 0 _ _ _
    (by decide) rfl rfl rfl (by decide) rfl rfl

/-- C4 counterexample: the claim fails when the canonical designation carries
surrounding whitespace.  The database's only NEO has designation " x" and the
query string " x" equals it verbatim — hence certainly up to letter case and
surrounding whitespace — and no other NEO exists, yet the lookup misses
(returns the absent sentinel instead of that NEO): the dictionary key " x"
was lowercased but never stripped, while the query side strips. -/
theorem C4_whitespace_designation_counterexample :
    (NEODatabase.init [⟨" x", none, []⟩] []).get_neo_by_designation " x" = none := by
  decide

/-- C4 (amended): the designation and name lookups are case-insensitive and
trim surrounding whitespace of the query string — provided the canonical
field itself carries no surrounding whitespace (the dictionary keys are
lowercased but not stripped) and no other NEO collides with the lowercased
key, a query equal to the canonical designation (resp. non-empty name) up to
case and surrounding whitespace returns that NEO. -/
theorem C4_trimmed_lookup_case_insensitive :
    (∀ (neos : List NearEarthObject) (apps : List CloseApproach) (i : Nat)
       (n : NearEarthObject) (s : String),
       neos[i]? = some n →
       pyStrip n.designation = n.designation →
       pyLower (pyStrip s) = pyLower (pyStrip n.designation) →
       (∀ ii, ii < neos.length → ii ≠ i →
         neos[ii]?.map (fun nn => pyLower nn.designation) ≠ some (pyLower n.designation)) →
       (NEODatabase.init neos apps).get_neo_by_designation s = some i) ∧
    (∀ (neos : List NearEarthObject) (apps : List CloseApproach) (i : Nat)
       (n : NearEarthObject) (nm s : String),
       neos[i]? = some n →
       n.name = some nm →
       nm ≠ "" →
       pyStrip nm = nm →
       pyLower (pyStrip s) = pyLower (pyStrip nm) →
       (∀ ii, ii < neos.length → ii ≠ i →
         neos[ii]?.bind (fun nn => nn.name.map pyLower) ≠ some (pyLower nm)) →
       (NEODatabase.init neos apps).get_neo_by_name s = some i) := by
  constructor
  · intro neos apps i n s hn htrim hs hcol
    rw [get_neo_by_designation_init, lastKeyMatch_eq_some_iff]
    refine ⟨lt_length_of_getElem? hn, ?_, ?_⟩
    · rw [init_keyAt_desig, hn, hs, htrim]
      rfl
    · intro ii h1 h2
      rw [init_keyAt_desig, hs, htrim]
      exact hcol ii h2 (by omega)
  · intro neos apps i n nm s hn hname hnm htrim hs hcol
    rw [get_neo_by_name_init, lastKeyMatch_eq_some_iff]
    refine ⟨lt_length_of_getElem? hn, ?_, ?_⟩
    · rw [init_keyAt_name, hn, hs, htrim]
      simp [hname]
    · intro ii h1 h2
      rw [init_keyAt_name, hs, htrim]
      exact hcol ii h2 (by omega)

theorem C4_trimmed_lookup_case_insensitive_witness :
    (NEODatabase.init [⟨"433", some "Eros", []⟩, ⟨"2000 FJ10", none, []⟩]
        []).get_neo_by_designation " 2000 fj10 " = some 1 ∧
    (NEODatabase.init [⟨"433", some "Eros", []⟩, ⟨"2000 FJ10", none, []⟩]
        []).get_neo_by_name " EROS " = some 0 :=
  ⟨C4_trimmed_lookup_case_insensitive.1 _ _ 1 _ _ rfl (by decide) (by decide) (by decide),
   C4_trimmed_lookup_case_insensitive.2 _ _ 0 _ _ _ rfl rfl (by decide) (by decide)
     (by decide) (by decide)⟩

/-- C5 counterexample: a NEO whose `name` is the empty string is indexed —
the comprehension's guard is only `is not None` — so `get_neo_by_name("")`
finds that NEO instead of returning the absent sentinel, falsifying the
claim for a database with an empty-string-named NEO. -/
theorem C5_empty_name_counterexample :
    (NEODatabase.init [⟨"X", some "", []⟩] []).get_neo_by_name "" = some 0 := by
  decide

/-- C5 (amended): provided no NEO's name is the empty string (the documented
data-set precondition), `get_neo_by_name("")` returns the absent sentinel
and never raises; a call with the null representation raises
`AttributeError` (modelled by `get_neo_by_name_dyn`) rather than returning a
NEO or the absent sentinel; and a NEO with an absent name contributes no
entry to the name index. -/
theorem C5_empty_and_null_name_miss (neos : List NearEarthObject)
    (apps : List CloseApproach) (i : Nat)
    (hne : ∀ n ∈ neos, n.name ≠ some "")
    (hunnamed : neos[i]?.bind (fun n => n.name) = none) :
    (NEODatabase.init neos apps).get_neo_by_name "" = none ∧
    (NEODatabase.init neos apps).get_neo_by_name_dyn none =
      Except.error "AttributeError" ∧
    (NEODatabase.init neos apps)._name_to_neo.all (fun p => p.2 != i) = true := by
  refine ⟨?_, rfl, ?_⟩
  · rw [get_neo_by_name_init, lastKeyMatch_eq_none_iff]
    intro ii hii
    have h0 : pyLower (pyStrip "") = "" := rfl
    rw [h0, init_keyAt_name]
    cases hb : neos[ii]? with
    | none => simp
    | some n =>
      cases hnm : n.name with
      | none => simp [hnm]
      | some nm =>
        have hnm' : nm ≠ "" := fun he => hne n (List.getElem?_mem hb) (by rw [hnm, he])
        simp [hnm, pyLower_eq_empty_iff, hnm']
  · rw [List.all_eq_true]
    intro p hp
    rw [init_n2n_def] at hp
    unfold nameToNeoDict dictOfKeyed at hp
    have hkey := mem_dictFold _ _ p _ hp
    rw [← init_neos_def] at hkey
    rw [bne_iff_ne]
    intro hpe
    rw [hpe, init_keyAt_name] at hkey
    cases hb : neos[i]? with
    | none =>
      rw [hb] at hkey
      exact Option.noConfusion hkey
    | some n =>
      rw [hb] at hkey hunnamed
      simp only [Option.some_bind] at hunnamed
      simp [hunnamed] at hkey

theorem C5_empty_and_null_name_miss_witness :
    (NEODatabase.init [⟨"433", some "Eros", []⟩, ⟨"2000 FJ10", none, []⟩]
        []).get_neo_by_name "" = none ∧
    (NEODatabase.init [⟨"433", some "Eros", []⟩, ⟨"2000 FJ10", none, []⟩]
        []).get_neo_by_name_dyn none = Except.error "AttributeError" ∧
    (NEODatabase.init [⟨"433", some "Eros", []⟩, ⟨"2000 FJ10", none, []⟩]
        [])._name_to_neo.all (fun p => p.2 != 1) = true :=
  C5_empty_and_null_name_miss _ _ 1 (by decide) rfl

/-- C7: when two or more NEOs' designations (resp. names) coincide after
lowercasing, the dictionary comprehension silently lets the later entry
overwrite the earlier: no error is raised and a lookup on that lowercased
key returns the NEO occurring last in input order. -/
theorem C7_lowercase_collision_keeps_last :
    (∀ (neos : List NearEarthObject) (apps : List CloseApproach) (i j : Nat)
       (ni nj : NearEarthObject) (q : String),
       i < j →
       neos[i]? = some ni → neos[j]? = some nj →
       pyLower ni.designation = pyLower nj.designation →
       (∀ jj, jj < neos.length → j < jj →
         neos[jj]?.map (fun n => pyLower n.designation) ≠ some (pyLower nj.designation)) →
       pyLower (pyStrip q) = pyLower nj.designation →
       (NEODatabase.init neos apps).get_neo_by_designation q = some j) ∧
    (∀ (neos : List NearEarthObject) (apps : List CloseApproach) (i j : Nat)
       (ni nj : NearEarthObject) (nmi nmj q : String),
       i < j →
       neos[i]? = some ni → neos[j]? = some nj →
       ni.name = some nmi → nj.name = some nmj →
       pyLower nmi = pyLower nmj →
       (∀ jj, jj < neos.length → j < jj →
         neos[jj]?.bind (fun n => n.name.map pyLower) ≠ some (pyLower nmj)) →
       pyLower (pyStrip q) = pyLower nmj →
       (NEODatabase.init neos apps).get_neo_by_name q = some j) := by
  constructor
  · intro neos apps i j ni nj q hij hi hj hkey hlast hq
    rw [get_neo_by_designation_init, lastKeyMatch_eq_some_iff]
    refine ⟨lt_length_of_getElem? hj, ?_, ?_⟩
    · rw [init_keyAt_desig, hj, hq]
      rfl
    · intro jj h1 h2
      rw [init_keyAt_desig, hq]
      exact hlast jj h2 h1
  · intro neos apps i j ni nj nmi nmj q hij hi hj hni hnj hkey hlast hq
    rw [get_neo_by_name_init, lastKeyMatch_eq_some_iff]
    refine ⟨lt_length_of_getElem? hj, ?_, ?_⟩
    · rw [init_keyAt_name, hj, hq]
      simp [hnj]
    · intro jj h1 h2
      rw [init_keyAt_name, hq]
      exact hlast jj h2 h1

theorem C7_lowercase_collision_keeps_last_witness :
    (NEODatabase.init [⟨"2000 fj10", some "Eros", []⟩, ⟨"2000 FJ10", some "EROS", []⟩]
        []).get_neo_by_designation "2000 FJ10" = some 1 ∧
    (NEODatabase.init [⟨"2000 fj10", some "Eros", []⟩, ⟨"2000 FJ10", some "EROS", []⟩]
        []).get_neo_by_name "eros" = some 1 :=
  ⟨C7_lowercase_collision_keeps_last.1 _ _ 0 1 _ _ _ (by decide) rfl rfl (by decide)
     (by decide) (by decide),
   C7_lowercase_collision_keeps_last.2 _ _ 0 1 _ _ _ _ _ (by decide) rfl rfl rfl rfl
     (by decide) (by decide) (by decide)⟩
